import Mathlib

/-!
Verification of the tensor ICP registration core (Open3D `t::pipelines`).

The development shallowly embeds, with exact rational arithmetic:
* the point-to-plane normal-equations accumulation kernels
  (`ComputePosePointToPlaneCPU.cpp`, `ComputeTransformCUDA.cu`),
* the point-to-point Umeyama solver (`TransformationEstimation.cpp`),
* the RMSE computations of both estimators,
* `GetRegistrationResultAndCorrespondences` and the `RegistrationICP`
  convergence loop (`Registration.cpp`),
* the multiscale configuration-length check of `DemoTICPOdom.cpp`.

Machine floating point is modelled by ℚ (exact arithmetic); the single place
where IEEE non-finite values decide behaviour (division by a zero
correspondence count) is modelled by `Option ℚ` with `none` standing for a
non-finite double (NaN on the path in question).
-/

open Matrix

/-- One gathered point-to-plane correspondence, after the kernel has indexed
the flat `source_points_ptr` / `target_points_ptr` / `target_normals_ptr`
arrays with `3 * correspondence_first[i]` and `3 * correspondence_second[i]`:
`s` is the source point (sx, sy, sz), `t` the target point (tx, ty, tz) and
`nrm` the target normal (nx, ny, nz). -/
structure PlaneCorr where
  s : Fin 3 → ℚ
  t : Fin 3 → ℚ
  nrm : Fin 3 → ℚ

/-- The row Jacobian `ai[6]` of the kernels:
`{nz*sy - ny*sz, nx*sz - nz*sx, ny*sx - nx*sy, nx, ny, nz}`,
i.e. the cross product of the source point with the target normal followed by
the normal itself. -/
def jacRow (c : PlaneCorr) : Fin 6 → ℚ :=
  ![c.nrm 2 * c.s 1 - c.nrm 1 * c.s 2,
    c.nrm 0 * c.s 2 - c.nrm 2 * c.s 0,
    c.nrm 1 * c.s 0 - c.nrm 0 * c.s 1,
    c.nrm 0, c.nrm 1, c.nrm 2]

/-- The residual `bi = (tx - sx) * nx + (ty - sy) * ny + (tz - sz) * nz`. -/
def residualB (c : PlaneCorr) : ℚ :=
  (c.t 0 - c.s 0) * c.nrm 0 + (c.t 1 - c.s 1) * c.nrm 1 +
    (c.t 2 - c.s 2) * c.nrm 2

/-- The 27 per-correspondence contributions written by the kernels' inner
double loop `for (j = 0..5) for (k = 0..j)`: slot `i = j*(j+1)/2 + k` receives
`ai[j] * ai[k]` (the 21 upper-triangular AᵗA products, in loop order) and slot
`21 + j` receives `ai[j] * bi` (the 6 AᵗB products). -/
def contrib27 (c : PlaneCorr) : Fin 27 → ℚ :=
  let a := jacRow c
  let b := residualB c
  ![a 0 * a 0,
    a 1 * a 0, a 1 * a 1,
    a 2 * a 0, a 2 * a 1, a 2 * a 2,
    a 3 * a 0, a 3 * a 1, a 3 * a 2, a 3 * a 3,
    a 4 * a 0, a 4 * a 1, a 4 * a 2, a 4 * a 3, a 4 * a 4,
    a 5 * a 0, a 5 * a 1, a 5 * a 2, a 5 * a 3, a 5 * a 4, a 5 * a 5,
    a 0 * b, a 1 * b, a 2 * b, a 3 * b, a 4 * b, a 5 * b]

/-- The TBB identity element `std::vector<float> zeros_27(27, 0.0)`. -/
def zeros27 : Fin 27 → ℚ := fun _ => 0

/-- The TBB combine step: elementwise addition of two 27-element partials
(`result[j] = a[j] + b[j]`). -/
def combine27 (a b : Fin 27 → ℚ) : Fin 27 → ℚ := fun j => a j + b j

/-- One iteration of the kernels' accumulation loop body: each of the 27
slots of the running total gains the correspondence's contribution
(`running_total[i] += ai[j] * ai[k]`, `running_total[21+j] += ai[j] * bi`). -/
def accumulate27 (v : Fin 27 → ℚ) (c : PlaneCorr) : Fin 27 → ℚ :=
  fun i => v i + contrib27 c i

/-- Sequential accumulation of a whole correspondence list from the zero
vector, as a single worker would perform it. -/
def seqAccum (l : List PlaneCorr) : Fin 27 → ℚ :=
  l.foldl accumulate27 zeros27

/-- Chunked accumulation: each chunk is accumulated locally from the zero
vector and the partials are combined by elementwise addition, as
`tbb::parallel_reduce` does over the blocked range. -/
def parAccum (chunks : List (List PlaneCorr)) : Fin 27 → ℚ :=
  chunks.foldl (fun acc ch => combine27 acc (seqAccum ch)) zeros27

theorem combine27_zeros_left (v : Fin 27 → ℚ) : combine27 zeros27 v = v := by
  funext i; simp [combine27, zeros27]

theorem combine27_zeros_right (v : Fin 27 → ℚ) : combine27 v zeros27 = v := by
  funext i; simp [combine27, zeros27]

theorem combine27_assoc (a b c : Fin 27 → ℚ) :
    combine27 (combine27 a b) c = combine27 a (combine27 b c) := by
  funext i; simp [combine27, add_assoc]

theorem combine27_comm (a b : Fin 27 → ℚ) : combine27 a b = combine27 b a := by
  funext i; simp [combine27, add_comm]

theorem accumulate27_eq_combine (v : Fin 27 → ℚ) (c : PlaneCorr) :
    accumulate27 v c = combine27 v (contrib27 c) := rfl

theorem foldl_accumulate27 (l : List PlaneCorr) (v : Fin 27 → ℚ) :
    l.foldl accumulate27 v = combine27 v (seqAccum l) := by
  induction l generalizing v with
  | nil => simp [seqAccum, combine27_zeros_right]
  | cons c l ih =>
      have h0 : accumulate27 zeros27 c = contrib27 c := by
        funext i; simp [accumulate27, zeros27]
      have hseq : seqAccum (c :: l) = combine27 (contrib27 c) (seqAccum l) := by
        simp only [seqAccum, List.foldl_cons]
        rw [ih, h0]
        rfl
      simp only [List.foldl_cons]
      rw [ih, hseq, accumulate27_eq_combine, combine27_assoc]

theorem seqAccum_append (l₁ l₂ : List PlaneCorr) :
    seqAccum (l₁ ++ l₂) = combine27 (seqAccum l₁) (seqAccum l₂) := by
  simp only [seqAccum, List.foldl_append]
  exact foldl_accumulate27 l₂ (List.foldl accumulate27 zeros27 l₁)

theorem parAccum_flatten (chunks : List (List PlaneCorr)) :
    parAccum chunks = seqAccum chunks.flatten := by
  suffices h : ∀ (cs : List (List PlaneCorr)) (acc : Fin 27 → ℚ),
      cs.foldl (fun a ch => combine27 a (seqAccum ch)) acc =
        combine27 acc (seqAccum cs.flatten) by
    rw [parAccum, h, combine27_zeros_left]
  intro cs
  induction cs with
  | nil => intro acc; simp [seqAccum, zeros27, combine27_zeros_right]
  | cons ch cs ih =>
      intro acc
      simp only [List.foldl_cons, List.flatten_cons]
      rw [ih, seqAccum_append, combine27_assoc]

/-- C2: accumulating the 27-element partial vectors (21 AᵗA upper-triangle
entries plus 6 AᵗB entries) chunk by chunk and combining the partials by
elementwise addition yields, for every partition of the correspondence list
into contiguous chunks (any chunk count, covering k ∈ {1, 2, 8, N}), exactly
the same result as a single sequential accumulation over the whole list; the
combine step is moreover commutative and associative, so any combination
order agrees (exact arithmetic). -/
theorem parallel_accum_eq_sequential (l : List PlaneCorr)
    (chunks : List (List PlaneCorr)) (hpart : chunks.flatten = l) :
    parAccum chunks = seqAccum l ∧
      (∀ a b, combine27 a b = combine27 b a) ∧
      (∀ a b c, combine27 (combine27 a b) c = combine27 a (combine27 b c)) :=
  ⟨hpart ▸ parAccum_flatten chunks, combine27_comm, combine27_assoc⟩

/-- Concrete correspondences used by witness instantiations. -/
def pcW1 : PlaneCorr := ⟨![1, 2, 3], ![0, 1, 0], ![1, 0, 0]⟩

/-- Second concrete correspondence used by witness instantiations. -/
def pcW2 : PlaneCorr := ⟨![2, 0, 1], ![1, 1, 1], ![0, 0, 1]⟩

/-- Witness for C2: the two-chunk partition of a two-element correspondence
list, checked on concrete data. -/
theorem parallel_accum_eq_sequential_witness :
    ([[pcW1], [pcW2]] : List (List PlaneCorr)).flatten = [pcW1, pcW2] ∧
      (parAccum [[pcW1], [pcW2]] = seqAccum [pcW1, pcW2] ∧
        (∀ a b, combine27 a b = combine27 b a) ∧
        (∀ a b c, combine27 (combine27 a b) c =
          combine27 a (combine27 b c))) :=
  ⟨rfl, parallel_accum_eq_sequential [pcW1, pcW2] [[pcW1], [pcW2]] rfl⟩

/-- The mirroring loop `ata_ptr[j * 6 + k] = ata_ptr[k * 6 + j] = A_1x27[i]`
that expands the 21 accumulated upper-triangular entries (slot
`i = j*(j+1)/2 + k` for `k ≤ j`) into the full symmetric 6×6 AᵗA matrix,
written out row by row. -/
def ataFromTri (v : Fin 27 → ℚ) : Matrix (Fin 6) (Fin 6) ℚ :=
  Matrix.of
    ![![v 0, v 1, v 3, v 6, v 10, v 15],
      ![v 1, v 2, v 4, v 7, v 11, v 16],
      ![v 3, v 4, v 5, v 8, v 12, v 17],
      ![v 6, v 7, v 8, v 9, v 13, v 18],
      ![v 10, v 11, v 12, v 13, v 14, v 19],
      ![v 15, v 16, v 17, v 18, v 19, v 20]]

/-- The extraction `atb_ptr[j] = A_1x27[j + 21]` of the 6 AᵗB entries. -/
def atbFromTri (v : Fin 27 → ℚ) : Fin 6 → ℚ :=
  ![v 21, v 22, v 23, v 24, v 25, v 26]

/-- Specification-side normal-equations matrix: the sum of the outer products
`a·aᵗ` of the row Jacobians over all correspondences. -/
def specATA (l : List PlaneCorr) : Matrix (Fin 6) (Fin 6) ℚ :=
  (l.map fun c => Matrix.vecMulVec (jacRow c) (jacRow c)).sum

/-- Specification-side right-hand side: the sum of `a·b` over all
correspondences. -/
def specATB (l : List PlaneCorr) : Fin 6 → ℚ :=
  (l.map fun c => residualB c • jacRow c).sum

theorem ataFromTri_combine (a b : Fin 27 → ℚ) :
    ataFromTri (combine27 a b) = ataFromTri a + ataFromTri b := by
  ext i j
  fin_cases i <;> fin_cases j <;> rfl

theorem atbFromTri_combine (a b : Fin 27 → ℚ) :
    atbFromTri (combine27 a b) = atbFromTri a + atbFromTri b := by
  funext j
  fin_cases j <;> rfl

theorem ataFromTri_zeros : ataFromTri zeros27 = 0 := by
  ext i j
  fin_cases i <;> fin_cases j <;> rfl

theorem atbFromTri_zeros : atbFromTri zeros27 = 0 := by
  funext j
  fin_cases j <;> rfl

theorem ataFromTri_contrib (c : PlaneCorr) :
    ataFromTri (contrib27 c) = Matrix.vecMulVec (jacRow c) (jacRow c) := by
  ext i j
  fin_cases i <;> fin_cases j <;> first | rfl | exact mul_comm _ _

theorem atbFromTri_contrib (c : PlaneCorr) :
    atbFromTri (contrib27 c) = residualB c • jacRow c := by
  funext j
  fin_cases j <;> exact mul_comm _ _

theorem ataFromTri_seqAccum (l : List PlaneCorr) :
    ataFromTri (seqAccum l) = specATA l := by
  induction l with
  | nil => simp [seqAccum, specATA, ataFromTri_zeros]
  | cons c l ih =>
      have hseq : seqAccum (c :: l) =
          combine27 (contrib27 c) (seqAccum l) := by
        have h0 : accumulate27 zeros27 c = contrib27 c := by
          funext i; simp [accumulate27, zeros27]
        simp only [seqAccum, List.foldl_cons]
        rw [foldl_accumulate27, h0]
        rfl
      rw [hseq, ataFromTri_combine, ataFromTri_contrib, ih]
      simp [specATA]

theorem atbFromTri_seqAccum (l : List PlaneCorr) :
    atbFromTri (seqAccum l) = specATB l := by
  induction l with
  | nil => simp [seqAccum, specATB, atbFromTri_zeros]
  | cons c l ih =>
      have hseq : seqAccum (c :: l) =
          combine27 (contrib27 c) (seqAccum l) := by
        have h0 : accumulate27 zeros27 c = contrib27 c := by
          funext i; simp [accumulate27, zeros27]
        simp only [seqAccum, List.foldl_cons]
        rw [foldl_accumulate27, h0]
        rfl
      rw [hseq, atbFromTri_combine, atbFromTri_contrib, ih]
      simp [specATB]

/-- C3: the point-to-plane pose kernel's accumulated and mirrored 6×6 matrix
equals the sum of outer products `a·aᵗ` of the row Jacobians
`a = [p_s × n_t ; n_t]`, its accumulated 6-vector equals the sum of `a·b`
with residual `b = (p_t − p_s)·n_t`, and hence a pose vector solves the
linear system the kernel hands to `Solve` exactly when it solves the
normal equations `AᵗA · pose = AᵗB` of the specification. -/
theorem pose_point_to_plane_normal_equations (l : List PlaneCorr) :
    ataFromTri (seqAccum l) = specATA l ∧
      atbFromTri (seqAccum l) = specATB l ∧
      ∀ p : Fin 6 → ℚ,
        (ataFromTri (seqAccum l)).mulVec p = atbFromTri (seqAccum l) ↔
          (specATA l).mulVec p = specATB l := by
  refine ⟨ataFromTri_seqAccum l, atbFromTri_seqAccum l, fun p => ?_⟩
  rw [ataFromTri_seqAccum, atbFromTri_seqAccum]

/-- The radicand computed by `TransformationEstimationPointToPlane::ComputeRMSE`:
`error_t = (source_select - target_select).Mul_(target_n_select)` multiplies
the point offsets with the target normals componentwise, `error_t.Mul_(error_t)`
squares every component, `Sum({0, 1})` sums over correspondences and
components, and the result is divided by the correspondence count `C`. -/
def p2planeRMSERadicand (src tgt nrm : ℕ → Fin 3 → ℚ)
    (corres : List (ℕ × ℕ)) : ℚ :=
  (corres.map fun c =>
    ((src c.1 0 - tgt c.2 0) * nrm c.2 0) ^ 2 +
      ((src c.1 1 - tgt c.2 1) * nrm c.2 1) ^ 2 +
      ((src c.1 2 - tgt c.2 2) * nrm c.2 2) ^ 2).sum
    / (corres.length : ℚ)

/-- `TransformationEstimationPointToPlane::ComputeRMSE`: returns `0.0` when
the target has no normals, otherwise `std::sqrt` of the accumulated error
divided by the correspondence count. -/
noncomputable def computeRMSEPointToPlane (src tgt nrm : ℕ → Fin 3 → ℚ)
    (hasNormals : Bool) (corres : List (ℕ × ℕ)) : ℝ :=
  if hasNormals then
    Real.sqrt ((p2planeRMSERadicand src tgt nrm corres : ℚ) : ℝ)
  else 0

/-- Follows the spec's words (4.3): "RMSE: sqrt(mean squared
`((p_s − p_t)·n_t)²` over correspondences)" — the residual is the dot product
of the point offset with the target normal, squared, then averaged and
square-rooted. -/
noncomputable def specPointToPlaneRMSE (src tgt nrm : ℕ → Fin 3 → ℚ)
    (corres : List (ℕ × ℕ)) : ℝ :=
  Real.sqrt
    ((((corres.map fun c =>
        ((src c.1 0 - tgt c.2 0) * nrm c.2 0 +
          (src c.1 1 - tgt c.2 1) * nrm c.2 1 +
          (src c.1 2 - tgt c.2 2) * nrm c.2 2) ^ 2).sum
      / (corres.length : ℚ) : ℚ) : ℝ))

/-- Failing input for C1: a single correspondence whose offset is (1,1,0)
and whose target normal is (1,1,0). -/
def srcC1 : ℕ → Fin 3 → ℚ := fun _ => ![1, 1, 0]

/-- Target points of the C1 failing input (the origin). -/
def tgtC1 : ℕ → Fin 3 → ℚ := fun _ => ![0, 0, 0]

/-- Target normals of the C1 failing input. -/
def nrmC1 : ℕ → Fin 3 → ℚ := fun _ => ![1, 1, 0]

theorem sqrt_two_ne_two : Real.sqrt 2 ≠ 2 := by
  have h4 : Real.sqrt 4 = 2 := by
    rw [show (4 : ℝ) = 2 ^ 2 by norm_num,
      Real.sqrt_sq (by norm_num : (0 : ℝ) ≤ 2)]
  have hlt : Real.sqrt 2 < Real.sqrt 4 :=
    Real.sqrt_lt_sqrt (by norm_num) (by norm_num)
  rw [h4] at hlt
  exact ne_of_lt hlt

/-- C1 (code bug): on the single correspondence with source point (1,1,0),
target point (0,0,0) and target normal (1,1,0), the code's
`ComputeRMSE` returns `sqrt 2` — it sums the squares of the componentwise
products `((p_s − p_t)_k · (n_t)_k)²` — while the specified value
`sqrt((1/C)·Σ ((p_s − p_t)·n_t)²)` is `sqrt 4 = 2`; the two disagree. -/
theorem point_to_plane_rmse_code_bug :
    computeRMSEPointToPlane srcC1 tgtC1 nrmC1 true [(0, 0)] = Real.sqrt 2 ∧
      specPointToPlaneRMSE srcC1 tgtC1 nrmC1 [(0, 0)] = 2 ∧
      computeRMSEPointToPlane srcC1 tgtC1 nrmC1 true [(0, 0)] ≠
        specPointToPlaneRMSE srcC1 tgtC1 nrmC1 [(0, 0)] := by
  have hrad : p2planeRMSERadicand srcC1 tgtC1 nrmC1 [(0, 0)] = 2 := by
    norm_num [p2planeRMSERadicand, srcC1, tgtC1, nrmC1]
  have hcode : computeRMSEPointToPlane srcC1 tgtC1 nrmC1 true [(0, 0)] =
      Real.sqrt 2 := by
    rw [computeRMSEPointToPlane, if_pos rfl, hrad]
    norm_num
  have hspec : specPointToPlaneRMSE srcC1 tgtC1 nrmC1 [(0, 0)] = 2 := by
    rw [specPointToPlaneRMSE]
    norm_num [srcC1, tgtC1, nrmC1]
    rw [show (4 : ℝ) = 2 ^ 2 by norm_num,
      Real.sqrt_sq (by norm_num : (0 : ℝ) ≤ 2)]
  refine ⟨hcode, hspec, ?_⟩
  rw [hcode, hspec]
  exact sqrt_two_ne_two

/-- 3×3 rational matrices, standing for the `Float32` tensors of the solver. -/
abbrev Mat3 := Matrix (Fin 3) (Fin 3) ℚ

/-- `source.GetPoints().IndexGet({corres.first})`: the source points gathered
by the first correspondence indices. -/
def selSource (src : ℕ → Fin 3 → ℚ) (corres : List (ℕ × ℕ)) :
    List (Fin 3 → ℚ) :=
  corres.map fun c => src c.1

/-- `target.GetPoints().IndexGet({corres.second})`: the target points gathered
by the second correspondence indices. -/
def selTarget (tgt : ℕ → Fin 3 → ℚ) (corres : List (ℕ × ℕ)) :
    List (Fin 3 → ℚ) :=
  corres.map fun c => tgt c.2

/-- `Mean({0})` of a gathered point list: the centroid. -/
def centroid (pts : List (Fin 3 → ℚ)) : Fin 3 → ℚ :=
  ((pts.length : ℚ))⁻¹ • pts.sum

/-- The cross-covariance `Sxy = (target_select - muy)ᵀ · (source_select - mux)
/ C` of `TransformationEstimationPointToPoint::ComputeTransformation`,
written as the averaged sum of outer products of the centered pairs. -/
def crossCovariance (src tgt : ℕ → Fin 3 → ℚ) (corres : List (ℕ × ℕ)) :
    Mat3 :=
  let mux := centroid (selSource src corres)
  let muy := centroid (selTarget tgt corres)
  ((corres.length : ℚ))⁻¹ •
    (corres.map fun c =>
      Matrix.vecMulVec (tgt c.2 - muy) (src c.1 - mux)).sum

/-- The sign-correction matrix `S`: the identity, with `S[-1][-1] = -1`
exactly when `U.Det() * (VT.T()).Det() < 0`. -/
def signCorrection (U VT : Mat3) : Mat3 :=
  if U.det * VTᵀ.det < 0 then Matrix.diagonal ![1, 1, -1] else 1

/-- The solver's rotation `R = U.Matmul(S.Matmul(VT))`. -/
def rotationP2P (U VT : Mat3) : Mat3 :=
  U * (signCorrection U VT * VT)

/-- The solver's translation `t = muy - R.Matmul(mux)`. -/
def translationP2P (src tgt : ℕ → Fin 3 → ℚ) (corres : List (ℕ × ℕ))
    (U VT : Mat3) : Fin 3 → ℚ :=
  centroid (selTarget tgt corres) -
    (rotationP2P U VT).mulVec (centroid (selSource src corres))

theorem det_mul_self_of_orth {U : Mat3} (hU : U * Uᵀ = 1) :
    U.det * U.det = 1 := by
  have h := congrArg Matrix.det hU
  rwa [Matrix.det_mul, Matrix.det_transpose, Matrix.det_one] at h

theorem signCorrection_transpose (U VT : Mat3) :
    (signCorrection U VT)ᵀ = signCorrection U VT := by
  unfold signCorrection
  split
  · exact Matrix.diagonal_transpose _
  · exact Matrix.transpose_one

theorem signCorrection_mul_self (U VT : Mat3) :
    signCorrection U VT * signCorrection U VT = 1 := by
  unfold signCorrection
  split
  · rw [Matrix.diagonal_mul_diagonal]
    have h1 : (fun i => (![1, 1, -1] : Fin 3 → ℚ) i * ![1, 1, -1] i) =
        fun _ : Fin 3 => (1 : ℚ) := by
      funext i; fin_cases i <;> norm_num
    rw [h1]
    exact Matrix.diagonal_one
  · rw [one_mul]

theorem det_signCorrection_neg (U VT : Mat3)
    (h : U.det * VTᵀ.det < 0) :
    (signCorrection U VT).det = -1 := by
  rw [signCorrection, if_pos h, Matrix.det_diagonal]
  simp [Fin.prod_univ_three]

theorem det_signCorrection_nonneg (U VT : Mat3)
    (h : ¬ U.det * VTᵀ.det < 0) :
    (signCorrection U VT).det = 1 := by
  rw [signCorrection, if_neg h, Matrix.det_one]

/-- C4: given the centroids and cross-covariance of the gathered pairs, an
SVD `Sxy = U·D·Vᵀ` with orthogonal factors, and the sign correction
`S = diag(1,1, sign(det U · det Vᵀ))`, the point-to-point solver's rotation
`R = U·S·Vᵀ` has determinant exactly +1 and orthonormal columns (RᵗR = 1) —
never a reflection — and its translation is `t = μy − R·μx`. -/
theorem point_to_point_proper_rotation (src tgt : ℕ → Fin 3 → ℚ)
    (corres : List (ℕ × ℕ)) (U D VT : Mat3)
    (hC : 3 ≤ corres.length)
    (hU : U * Uᵀ = 1) (hV : VT * VTᵀ = 1)
    (hSVD : crossCovariance src tgt corres = U * D * VT) :
    rotationP2P U VT = U * (signCorrection U VT * VT) ∧
      translationP2P src tgt corres U VT =
        centroid (selTarget tgt corres) -
          (rotationP2P U VT).mulVec (centroid (selSource src corres)) ∧
      (rotationP2P U VT).det = 1 ∧
      (rotationP2P U VT)ᵀ * rotationP2P U VT = 1 := by
  have hdu : U.det * U.det = 1 := det_mul_self_of_orth hU
  have hdv : VT.det * VT.det = 1 := det_mul_self_of_orth hV
  have hd : (U.det * VT.det) * (U.det * VT.det) = 1 := by
    have h : (U.det * VT.det) * (U.det * VT.det) =
        (U.det * U.det) * (VT.det * VT.det) := by ring
    rw [h, hdu, hdv, one_mul]
  have hdet : (rotationP2P U VT).det = 1 := by
    rw [rotationP2P, Matrix.det_mul, Matrix.det_mul]
    by_cases hneg : U.det * VTᵀ.det < 0
    · have hd' : U.det * VT.det = -1 := by
        rcases mul_self_eq_one_iff.mp hd with h1 | h1
        · exfalso
          rw [Matrix.det_transpose] at hneg
          rw [h1] at hneg
          exact absurd hneg (by norm_num)
        · exact h1
      rw [det_signCorrection_neg U VT hneg]
      nlinarith [hd']
    · have hd' : U.det * VT.det = 1 := by
        rcases mul_self_eq_one_iff.mp hd with h1 | h1
        · exact h1
        · exfalso
          rw [Matrix.det_transpose] at hneg
          rw [h1] at hneg
          exact absurd (by norm_num : (-1 : ℚ) < 0) hneg
      rw [det_signCorrection_nonneg U VT hneg]
      nlinarith [hd']
  have horth : (rotationP2P U VT)ᵀ * rotationP2P U VT = 1 := by
    have hUtU : Uᵀ * U = 1 := Matrix.mul_eq_one_comm.mp hU
    have hVtV : VTᵀ * VT = 1 := Matrix.mul_eq_one_comm.mp hV
    have hSS : signCorrection U VT * signCorrection U VT = 1 :=
      signCorrection_mul_self U VT
    rw [rotationP2P]
    simp only [Matrix.transpose_mul, signCorrection_transpose,
      Matrix.mul_assoc]
    rw [← Matrix.mul_assoc Uᵀ U, hUtU, one_mul,
      ← Matrix.mul_assoc (signCorrection U VT) (signCorrection U VT), hSS,
      one_mul]
    exact hVtV
  exact ⟨rfl, rfl, hdet, horth⟩

/-- All-zero point set used by witness instantiations. -/
def zeroPts : ℕ → Fin 3 → ℚ := fun _ _ => 0

/-- Witness for C4: three correspondences of zero points with the trivial
decomposition `Sxy = 1 · 0 · 1`. -/
theorem point_to_point_proper_rotation_witness :
    (3 ≤ ([(0, 0), (1, 1), (2, 2)] : List (ℕ × ℕ)).length ∧
      (1 : Mat3) * (1 : Mat3)ᵀ = 1 ∧
      crossCovariance zeroPts zeroPts [(0, 0), (1, 1), (2, 2)] =
        1 * (0 : Mat3) * 1) ∧
      (rotationP2P 1 1 = 1 * (signCorrection 1 1 * 1) ∧
        translationP2P zeroPts zeroPts [(0, 0), (1, 1), (2, 2)] 1 1 =
          centroid (selTarget zeroPts [(0, 0), (1, 1), (2, 2)]) -
            (rotationP2P 1 1).mulVec
              (centroid (selSource zeroPts [(0, 0), (1, 1), (2, 2)])) ∧
        (rotationP2P 1 1).det = 1 ∧
        (rotationP2P 1 1)ᵀ * rotationP2P 1 1 = 1) := by
  have horth : (1 : Mat3) * (1 : Mat3)ᵀ = 1 := by
    rw [Matrix.transpose_one, one_mul]
  have hcov : crossCovariance zeroPts zeroPts [(0, 0), (1, 1), (2, 2)] =
      1 * (0 : Mat3) * 1 := by
    rw [mul_one, one_mul]
    ext i j
    simp [crossCovariance, centroid, selSource, selTarget, zeroPts,
      Matrix.vecMulVec_apply, List.sum_cons, List.sum_nil,
      Matrix.smul_apply, Matrix.add_apply, Matrix.zero_apply,
      Pi.sub_apply, Pi.zero_apply, Pi.add_apply, smul_eq_mul]
  exact ⟨⟨by norm_num, horth, hcov⟩,
    point_to_point_proper_rotation zeroPts zeroPts [(0, 0), (1, 1), (2, 2)]
      1 0 1 (by norm_num) horth horth hcov⟩

/-- The `RegistrationICP` iteration loop
`for (int i = 0; i < criteria.max_iteration_; i++)`, abstracted over the
state `S` carried across iterations (working transform, transformed source,
current result) and the per-iteration step (solve update, compose, transform,
recompute result). The body runs the step, then breaks exactly when BOTH
`|prev_fitness - fitness| < relative_fitness` and
`|prev_rmse - rmse| < relative_rmse` hold; it returns the final state and the
number of iterations executed. -/
def icpLoopAux {S : Type} (step : S → S) (fit rm : S → ℚ) (relF relR : ℚ) :
    ℕ → S → S × ℕ
  | 0, s => (s, 0)
  | fuel + 1, s =>
      let s' := step s
      if |fit s - fit s'| < relF ∧ |rm s - rm s'| < relR then (s', 1)
      else
        let r := icpLoopAux step fit rm relF relR fuel s'
        (r.1, r.2 + 1)

/-- Both convergence deltas are strictly below their thresholds between two
consecutive states. -/
def convergedPair {S : Type} (fit rm : S → ℚ) (relF relR : ℚ)
    (s s' : S) : Prop :=
  |fit s - fit s'| < relF ∧ |rm s - rm s'| < relR

instance {S : Type} (fit rm : S → ℚ) (relF relR : ℚ) (s s' : S) :
    Decidable (convergedPair fit rm relF relR s s') :=
  And.decidable

/-- The convergence test holds after iteration `i` of the trajectory started
at `s`. -/
def convergedAt {S : Type} (step : S → S) (fit rm : S → ℚ)
    (relF relR : ℚ) (s : S) (i : ℕ) : Prop :=
  convergedPair fit rm relF relR (step^[i] s) (step^[i + 1] s)

instance {S : Type} (step : S → S) (fit rm : S → ℚ) (relF relR : ℚ)
    (s : S) (i : ℕ) : Decidable (convergedAt step fit rm relF relR s i) :=
  And.decidable

theorem icpLoopAux_count_le {S : Type} (step : S → S) (fit rm : S → ℚ)
    (relF relR : ℚ) (fuel : ℕ) (s : S) :
    (icpLoopAux step fit rm relF relR fuel s).2 ≤ fuel := by
  induction fuel generalizing s with
  | zero => simp [icpLoopAux]
  | succ n ih =>
      rw [icpLoopAux]
      split
      · simp
      · simpa using ih (step s)

theorem icpLoopAux_fst_iterate {S : Type} (step : S → S) (fit rm : S → ℚ)
    (relF relR : ℚ) (fuel : ℕ) (s : S) :
    (icpLoopAux step fit rm relF relR fuel s).1 =
      step^[(icpLoopAux step fit rm relF relR fuel s).2] s := by
  induction fuel generalizing s with
  | zero => simp [icpLoopAux]
  | succ n ih =>
      rw [icpLoopAux]
      split
      · simp
      · simpa [Function.iterate_succ_apply] using ih (step s)

theorem convergedAt_shift {S : Type} (step : S → S) (fit rm : S → ℚ)
    (relF relR : ℚ) (s : S) (i : ℕ) :
    convergedAt step fit rm relF relR (step s) i ↔
      convergedAt step fit rm relF relR s (i + 1) := by
  unfold convergedAt
  rw [← Function.iterate_succ_apply step i s,
    ← Function.iterate_succ_apply step (i + 1) s]

theorem icpLoopAux_early {S : Type} (step : S → S) (fit rm : S → ℚ)
    (relF relR : ℚ) (fuel : ℕ) (s : S)
    (h : (icpLoopAux step fit rm relF relR fuel s).2 < fuel) :
    0 < (icpLoopAux step fit rm relF relR fuel s).2 ∧
      convergedAt step fit rm relF relR s
        ((icpLoopAux step fit rm relF relR fuel s).2 - 1) ∧
      ∀ i < (icpLoopAux step fit rm relF relR fuel s).2 - 1,
        ¬ convergedAt step fit rm relF relR s i := by
  induction fuel generalizing s with
  | zero => exact absurd h (by simp [icpLoopAux])
  | succ n ih =>
      by_cases hc : |fit s - fit (step s)| < relF ∧ |rm s - rm (step s)| < relR
      · rw [icpLoopAux] at h ⊢
        simp only [if_pos hc] at h ⊢
        refine ⟨by norm_num, ?_, by omega⟩
        simpa [convergedAt, convergedPair] using hc
      · rw [icpLoopAux] at h ⊢
        simp only [if_neg hc] at h ⊢
        have hlt : (icpLoopAux step fit rm relF relR n (step s)).2 < n := by
          omega
        obtain ⟨hpos, hconv, hbefore⟩ := ih (step s) hlt
        refine ⟨by omega, ?_, ?_⟩
        · have hsh := (convergedAt_shift step fit rm relF relR s
            ((icpLoopAux step fit rm relF relR n (step s)).2 - 1)).mp hconv
          have harith :
              (icpLoopAux step fit rm relF relR n (step s)).2 - 1 + 1 =
              (icpLoopAux step fit rm relF relR n (step s)).2 + 1 - 1 := by
            omega
          rwa [harith] at hsh
        · intro i hi
          match i with
          | 0 =>
              intro hcontra
              exact hc (by simpa [convergedAt, convergedPair] using hcontra)
          | j + 1 =>
              intro hcontra
              exact hbefore j (by omega)
                ((convergedAt_shift step fit rm relF relR s j).mpr hcontra)

theorem icpLoopAux_full {S : Type} (step : S → S) (fit rm : S → ℚ)
    (relF relR : ℚ) (fuel : ℕ) (s : S)
    (h : ∀ i < fuel, ¬ convergedAt step fit rm relF relR s i) :
    (icpLoopAux step fit rm relF relR fuel s).2 = fuel := by
  induction fuel generalizing s with
  | zero => simp [icpLoopAux]
  | succ n ih =>
      rw [icpLoopAux]
      split
      · rename_i hc
        exact absurd (by simpa [convergedAt, convergedPair] using hc)
          (h 0 (by omega))
      · simp only
        have hnext : ∀ i < n,
            ¬ convergedAt step fit rm relF relR (step s) i := by
          intro i hi hcontra
          exact h (i + 1) (by omega)
            ((convergedAt_shift step fit rm relF relR s i).mp hcontra)
        rw [ih (step s) hnext]

/-- C5: for any per-iteration step and metric functions, the ICP loop with
iteration budget `max_iteration` executes at most `max_iteration` iterations;
when it stops early after `k < max_iteration` iterations it is exactly
because both the fitness delta and the RMSE delta fell strictly below their
thresholds at iteration `k` and at no earlier iteration (so a single delta
below threshold never stops the loop); and when the two deltas never both
fall below threshold it executes exactly `max_iteration` iterations. -/
theorem icp_loop_convergence {S : Type} (step : S → S) (fit rm : S → ℚ)
    (relF relR : ℚ) (maxIteration : ℕ) (s : S) :
    (icpLoopAux step fit rm relF relR maxIteration s).2 ≤ maxIteration ∧
      ((icpLoopAux step fit rm relF relR maxIteration s).2 < maxIteration →
        0 < (icpLoopAux step fit rm relF relR maxIteration s).2 ∧
          convergedAt step fit rm relF relR s
            ((icpLoopAux step fit rm relF relR maxIteration s).2 - 1) ∧
          ∀ i < (icpLoopAux step fit rm relF relR maxIteration s).2 - 1,
            ¬ convergedAt step fit rm relF relR s i) ∧
      ((∀ i < maxIteration, ¬ convergedAt step fit rm relF relR s i) →
        (icpLoopAux step fit rm relF relR maxIteration s).2 =
          maxIteration) :=
  ⟨icpLoopAux_count_le step fit rm relF relR maxIteration s,
    icpLoopAux_early step fit rm relF relR maxIteration s,
    icpLoopAux_full step fit rm relF relR maxIteration s⟩

/-- Witness for C5, on the concrete state space ℚ with step `+1` and
thresholds 1: the metrics change by exactly 1 each iteration, so the deltas
never fall strictly below the thresholds and the loop runs its full budget
of 3 iterations. -/
theorem icp_loop_convergence_witness :
    (icpLoopAux (fun q : ℚ => q + 1) id id 1 1 3 0).2 ≤ 3 ∧
      (∀ i < 3, ¬ convergedAt (fun q : ℚ => q + 1) id id 1 1 0 i) ∧
      (icpLoopAux (fun q : ℚ => q + 1) id id 1 1 3 0).2 = 3 := by
  have h := icp_loop_convergence (fun q : ℚ => q + 1) id id 1 1 3 0
  have hnever : ∀ i < 3, ¬ convergedAt (fun q : ℚ => q + 1) id id 1 1 0 i := by
    intro i _ hcontra
    obtain ⟨h1, _⟩ := hcontra
    have hstep : (fun q : ℚ => q + 1)^[i + 1] 0 =
        (fun q : ℚ => q + 1)^[i] 0 + 1 := by
      rw [Function.iterate_succ_apply']
    rw [id_eq, id_eq, hstep] at h1
    have hdiff : (fun q : ℚ => q + 1)^[i] 0 -
        ((fun q : ℚ => q + 1)^[i] 0 + 1) = -1 := by ring
    rw [hdiff] at h1
    norm_num at h1
  exact ⟨h.1, hnever, h.2.2 hnever⟩

/-- 4×4 rational homogeneous transformation matrices. -/
abbrev Mat4 := Matrix (Fin 4) (Fin 4) ℚ

/-- A point cloud in homogeneous coordinates, as mutated in place by
`PointCloud::Transform`. -/
abbrev Cloud4 := List (Fin 4 → ℚ)

/-- `PointCloud::Transform(M)`: apply the homogeneous matrix to every
point. -/
def transformCloud (M : Mat4) (c : Cloud4) : Cloud4 :=
  c.map fun p => M.mulVec p

theorem transformCloud_comp (A B : Mat4) (c : Cloud4) :
    transformCloud A (transformCloud B c) = transformCloud (A * B) c := by
  simp [transformCloud, Function.comp, Matrix.mulVec_mulVec]

/-- One `RegistrationICP` loop body, restricted to its transform state:
`update = estimation.ComputeTransformation(source_transformed, ...)` (the
solve, abstracted as a function of the current working cloud), then
`transformation_device = update.Matmul(transformation_device)`
(left-multiplication into the cumulative transform) and
`source_transformed.Transform(update)`. -/
def icpStep (estimate : Cloud4 → Mat4) (s : Mat4 × Cloud4) : Mat4 × Cloud4 :=
  (estimate s.2 * s.1, transformCloud (estimate s.2) s.2)

/-- The pre-loop state of `RegistrationICP`: the cumulative transform starts
at `init` and the working cloud is `source.Clone()` transformed by `init`. -/
def icpInit (source : Cloud4) (init : Mat4) : Mat4 × Cloud4 :=
  (init, transformCloud init source)

/-- The incremental transform solved at iteration `n` of the trajectory. -/
def updSeq (estimate : Cloud4 → Mat4) (source : Cloud4) (init : Mat4)
    (n : ℕ) : Mat4 :=
  estimate ((icpStep estimate)^[n] (icpInit source init)).2

/-- The left-multiplied chain `update_n · ... · update_1 · init` of
incremental transforms. -/
def chainTransform (estimate : Cloud4 → Mat4) (source : Cloud4)
    (init : Mat4) : ℕ → Mat4
  | 0 => init
  | n + 1 => updSeq estimate source init n * chainTransform estimate source init n

theorem icp_trajectory_invariant (estimate : Cloud4 → Mat4) (source : Cloud4)
    (init : Mat4) (n : ℕ) :
    (icpStep estimate)^[n] (icpInit source init) =
      (chainTransform estimate source init n,
        transformCloud (chainTransform estimate source init n) source) := by
  induction n with
  | zero => rfl
  | succ n ih =>
      rw [Function.iterate_succ_apply', ih]
      have hupd : updSeq estimate source init n =
          estimate (transformCloud (chainTransform estimate source init n)
            source) := by
        rw [updSeq, ih]
      rw [icpStep, chainTransform]
      simp only [hupd, transformCloud_comp]

/-- C6: along the `RegistrationICP` loop, after every iteration the
cumulative transform equals the chain `update_n · ... · update_1 · init` of
left-multiplied incremental transforms, the working source cloud equals the
original source transformed by that cumulative transform, and the state the
loop returns (whenever it stops) carries exactly this cumulative transform
together with the matching working cloud. -/
theorem icp_cumulative_transform (estimate : Cloud4 → Mat4) (source : Cloud4)
    (init : Mat4) (fit rm : Mat4 × Cloud4 → ℚ) (relF relR : ℚ)
    (maxIteration : ℕ) :
    (∀ n, (icpStep estimate)^[n] (icpInit source init) =
      (chainTransform estimate source init n,
        transformCloud (chainTransform estimate source init n) source)) ∧
      (icpLoopAux (icpStep estimate) fit rm relF relR maxIteration
          (icpInit source init)).1.1 =
        chainTransform estimate source init
          (icpLoopAux (icpStep estimate) fit rm relF relR maxIteration
            (icpInit source init)).2 ∧
      (icpLoopAux (icpStep estimate) fit rm relF relR maxIteration
          (icpInit source init)).1.2 =
        transformCloud
          (icpLoopAux (icpStep estimate) fit rm relF relR maxIteration
            (icpInit source init)).1.1 source := by
  refine ⟨icp_trajectory_invariant estimate source init, ?_, ?_⟩
  · rw [icpLoopAux_fst_iterate, icp_trajectory_invariant]
  · rw [icpLoopAux_fst_iterate, icp_trajectory_invariant]

/-- Guarded rational division modelling IEEE double division: `none` stands
for the non-finite result produced when the denominator is zero (NaN for
`0.0/0.0`, which is the only zero-denominator division reachable below). -/
def qdivF (a b : ℚ) : Option ℚ :=
  if b = 0 then none else some (a / b)

/-- The result record of `GetRegistrationResultAndCorrespondences`.
Modelled from the spec: the `RegistrationResult` constructor (declared
outside this repository's sources) initialises `fitness` and `inlier_rmse`
to zero alongside an empty correspondence set. The stored RMSE is kept as
its radicand `inlierRMSESq` (the code stores `std::sqrt` of it; see
`RegResult.inlierRMSE`). -/
structure RegResult where
  transformation : Mat4
  corres : List (ℕ × ℕ)
  fitness : Option ℚ
  inlierRMSESq : Option ℚ

/-- The squeezed hybrid-search output (modelled from the spec, 4.1: the
nearest-neighbour search is an external capability): one entry per source
point, `some (target index, squared distance)` when the nearest neighbour is
within the radius and `none` otherwise. Squeezing keeps the matched pairs. -/
def matchedPairs (res : List (Option (ℕ × ℚ))) : List (ℕ × ℕ) :=
  res.enum.filterMap fun p => p.2.map fun m => (p.1, m.1)

/-- `distances.Sum({0})`: the sum of the returned per-pair squared
distances. -/
def sumSqDistances (res : List (Option (ℕ × ℚ))) : ℚ :=
  (res.filterMap fun o => o.map Prod.snd).sum

/-- `GetRegistrationResultAndCorrespondences`: with
`max_correspondence_distance <= 0.0` it returns the freshly constructed
result immediately (before the nearest-neighbour index is built or queried);
otherwise it runs the hybrid search, counts the `C` correspondences, sums the
squared distances, and sets `fitness = C / N_source` and
`inlier_rmse = sqrt(squared_error / C)` with unguarded divisions. -/
def getRegistrationResult (nSource : ℕ) (T : Mat4) (maxDist : ℚ)
    (search : ℚ → List (Option (ℕ × ℚ))) : RegResult :=
  if maxDist ≤ 0 then ⟨T, [], some 0, some 0⟩
  else
    let res := search maxDist
    let pairs := matchedPairs res
    ⟨T, pairs, qdivF pairs.length nSource,
      qdivF (sumSqDistances res) pairs.length⟩

/-- The reported RMSE: `std::sqrt` of the stored radicand, `none` when the
radicand is already non-finite (sqrt propagates NaN). -/
noncomputable def RegResult.inlierRMSE (r : RegResult) : Option ℝ :=
  r.inlierRMSESq.map fun q => Real.sqrt (q : ℝ)

theorem matchedPairs_length_le (res : List (Option (ℕ × ℚ))) :
    (matchedPairs res).length ≤ res.length := by
  calc (matchedPairs res).length ≤ res.enum.length :=
        List.length_filterMap_le _ _
    _ = res.length := List.enum_length

/-- C7: with `N ≥ 1` source points, a positive threshold and one search
entry per source point, the reported fitness is exactly `C / N` for `C` the
number of matched pairs, this value lies in `[0, 1]`, and (whenever `C > 0`)
the reported inlier RMSE is `sqrt(sum of per-pair squared distances / C)`. -/
theorem fitness_and_rmse_formulas (N : ℕ) (T : Mat4) (maxDist : ℚ)
    (res : List (Option (ℕ × ℚ)))
    (hN : 1 ≤ N) (hd : 0 < maxDist) (hlen : res.length = N) :
    (getRegistrationResult N T maxDist fun _ => res).fitness =
        some (((matchedPairs res).length : ℚ) / (N : ℚ)) ∧
      (0 : ℚ) ≤ ((matchedPairs res).length : ℚ) / (N : ℚ) ∧
      ((matchedPairs res).length : ℚ) / (N : ℚ) ≤ 1 ∧
      (0 < (matchedPairs res).length →
        (getRegistrationResult N T maxDist fun _ => res).inlierRMSE =
          some (Real.sqrt
            ((sumSqDistances res / ((matchedPairs res).length : ℚ) : ℚ) : ℝ))) := by
  have hnotle : ¬ maxDist ≤ 0 := not_le.mpr hd
  have hNpos : (0 : ℚ) < (N : ℚ) := by exact_mod_cast hN
  have hNne : (N : ℚ) ≠ 0 := ne_of_gt hNpos
  refine ⟨?_, ?_, ?_, ?_⟩
  · simp [getRegistrationResult, if_neg hnotle, qdivF, hNne]
  · positivity
  · rw [div_le_one hNpos]
    have hle : (matchedPairs res).length ≤ N := hlen ▸ matchedPairs_length_le res
    exact_mod_cast hle
  · intro hC
    have hCne : (((matchedPairs res).length : ℚ)) ≠ 0 :=
      Nat.cast_ne_zero.mpr (by omega)
    simp [getRegistrationResult, if_neg hnotle, RegResult.inlierRMSE, qdivF,
      hCne]

/-- Witness for C7: two source points, the first matched at squared
distance 1. -/
theorem fitness_and_rmse_formulas_witness :
    (1 ≤ 2 ∧ (0 : ℚ) < 1 ∧
        ([some (0, 1), none] : List (Option (ℕ × ℚ))).length = 2) ∧
      ((getRegistrationResult 2 1 1
          fun _ => [some (0, 1), none]).fitness =
        some (((matchedPairs [some (0, 1), none]).length : ℚ) / (2 : ℚ)) ∧
      (0 : ℚ) ≤ ((matchedPairs [some (0, 1), none]).length : ℚ) / (2 : ℚ) ∧
      ((matchedPairs [some (0, 1), none]).length : ℚ) / (2 : ℚ) ≤ 1 ∧
      (0 < (matchedPairs [some (0, 1), none]).length →
        (getRegistrationResult 2 1 1
            fun _ => [some (0, 1), none]).inlierRMSE =
          some (Real.sqrt
            ((sumSqDistances [some (0, 1), none] /
              ((matchedPairs [some (0, 1), none]).length : ℚ) : ℚ) : ℝ)))) :=
  ⟨⟨by norm_num, by norm_num, rfl⟩,
    fitness_and_rmse_formulas 2 1 1 [some (0, 1), none]
      (by norm_num) (by norm_num) rfl⟩

/-- C8: with `max_correspondence_distance ≤ 0` the computation returns the
freshly constructed result — empty correspondence set, zero fitness, zero
RMSE, the input transformation — and is independent of the search oracle
(the nearest-neighbour index is neither built nor queried); no error path is
taken. -/
theorem max_distance_short_circuit (N : ℕ) (T : Mat4) (maxDist : ℚ)
    (s1 s2 : ℚ → List (Option (ℕ × ℚ))) (h : maxDist ≤ 0) :
    getRegistrationResult N T maxDist s1 = ⟨T, [], some 0, some 0⟩ ∧
      getRegistrationResult N T maxDist s1 =
        getRegistrationResult N T maxDist s2 := by
  constructor
  · rw [getRegistrationResult, if_pos h]
  · rw [getRegistrationResult, if_pos h, getRegistrationResult, if_pos h]

/-- Witness for C8: threshold 0 with two different search oracles. -/
theorem max_distance_short_circuit_witness :
    (0 : ℚ) ≤ 0 ∧
      (getRegistrationResult 5 1 0 (fun _ => [some (0, 1)]) =
          ⟨1, [], some 0, some 0⟩ ∧
        getRegistrationResult 5 1 0 (fun _ => [some (0, 1)]) =
          getRegistrationResult 5 1 0 fun _ => []) :=
  ⟨le_refl 0, max_distance_short_circuit 5 1 0
    (fun _ => [some (0, 1)]) (fun _ => []) (le_refl 0)⟩

/-- The convergence comparison `std::abs(prev - cur) < threshold` of the ICP
loop, on a possibly non-finite current RMSE: an IEEE comparison involving
NaN is false, so the proposition requires the current value to be finite. -/
def finiteAbsLt (prev : ℝ) (cur : Option ℝ) (thr : ℝ) : Prop :=
  ∃ y, cur = some y ∧ |prev - y| < thr

theorem matchedPairs_all_none (res : List (Option (ℕ × ℚ)))
    (h : ∀ o ∈ res, o = none) : matchedPairs res = [] := by
  rw [matchedPairs, List.filterMap_eq_nil_iff, List.forall_mem_enum]
  intro i hi
  rw [h res[i] (List.getElem_mem hi)]
  rfl

/-- C10: when the threshold is positive but the hybrid search matches no
source point (C = 0), the result still divides by the correspondence count:
fitness is 0 (a finite `0 / N`), while the RMSE radicand `0 / 0` is
non-finite (NaN) and so is its square root; no error is raised, and the NaN
makes the ICP loop's convergence comparison `|prev − rmse| < threshold`
false for every previous value and threshold, so the NaN — not a zero —
propagates into the convergence test. -/
theorem zero_correspondences_nan (N : ℕ) (T : Mat4) (maxDist : ℚ)
    (res : List (Option (ℕ × ℚ)))
    (hN : 1 ≤ N) (hd : 0 < maxDist) (hlen : res.length = N)
    (hnone : ∀ o ∈ res, o = none) :
    (getRegistrationResult N T maxDist fun _ => res).corres = [] ∧
      (getRegistrationResult N T maxDist fun _ => res).fitness = some 0 ∧
      (getRegistrationResult N T maxDist fun _ => res).inlierRMSESq = none ∧
      (getRegistrationResult N T maxDist fun _ => res).inlierRMSE = none ∧
      ∀ prev thr : ℝ,
        ¬ finiteAbsLt prev
          (getRegistrationResult N T maxDist fun _ => res).inlierRMSE thr := by
  have hnotle : ¬ maxDist ≤ 0 := not_le.mpr hd
  have hpairs : matchedPairs res = [] := matchedPairs_all_none res hnone
  have hNne : (N : ℚ) ≠ 0 := by
    have : (0 : ℚ) < (N : ℚ) := by exact_mod_cast hN
    exact ne_of_gt this
  have hcor : (getRegistrationResult N T maxDist fun _ => res).corres = [] := by
    simp [getRegistrationResult, if_neg hnotle, hpairs]
  have hfit : (getRegistrationResult N T maxDist fun _ => res).fitness =
      some 0 := by
    simp [getRegistrationResult, if_neg hnotle, hpairs, qdivF, hNne]
  have hsq : (getRegistrationResult N T maxDist fun _ => res).inlierRMSESq =
      none := by
    simp [getRegistrationResult, if_neg hnotle, hpairs, qdivF]
  have hrmse : (getRegistrationResult N T maxDist fun _ => res).inlierRMSE =
      none := by
    rw [RegResult.inlierRMSE, hsq]
    rfl
  refine ⟨hcor, hfit, hsq, hrmse, ?_⟩
  intro prev thr hcontra
  obtain ⟨y, hy, _⟩ := hcontra
  rw [hrmse] at hy
  exact Option.noConfusion hy

/-- Witness for C10: one source point, searched but unmatched. -/
theorem zero_correspondences_nan_witness :
    (1 ≤ 1 ∧ (0 : ℚ) < 1 ∧
        ([none] : List (Option (ℕ × ℚ))).length = 1 ∧
        (∀ o ∈ ([none] : List (Option (ℕ × ℚ))), o = none)) ∧
      ((getRegistrationResult 1 1 1 fun _ => [none]).corres = [] ∧
        (getRegistrationResult 1 1 1 fun _ => [none]).fitness = some 0 ∧
        (getRegistrationResult 1 1 1 fun _ => [none]).inlierRMSESq = none ∧
        (getRegistrationResult 1 1 1 fun _ => [none]).inlierRMSE = none ∧
        ∀ prev thr : ℝ,
          ¬ finiteAbsLt prev
            (getRegistrationResult 1 1 1 fun _ => [none]).inlierRMSE thr) :=
  ⟨⟨le_refl 1, by norm_num, rfl, by simp⟩,
    zero_correspondences_nan 1 1 1 [none] (le_refl 1) (by norm_num) rfl
      (by simp)⟩

/-- The per-level convergence criteria list built by `ReadConfigFile`:
`ICPConvergenceCriteria(relative_fitness[i], relative_rmse[i],
max_iterations[i])` for each scale level. -/
def levelCriteria (maxIt : List ℕ) (relFitness relRmse : List ℚ)
    (levels : ℕ) : List (ℚ × ℚ × ℕ) :=
  (List.range levels).map fun i =>
    (relFitness.getD i 0, relRmse.getD i 0, maxIt.getD i 0)

/-- The length check of `ExampleWindow::ReadConfigFile`: with
`icp_scale_levels_ = voxel_sizes_.size()`, a mismatch of any of the
`search_radius_`, `max_iterations`, `relative_fitness`, `relative_rmse`
list lengths raises `utility::LogError` (a fatal configuration error, before
the criteria are built and before any registration starts); otherwise the
per-level criteria are assembled. -/
def checkScaleLevels (voxelSizes searchRadius : List ℚ) (maxIt : List ℕ)
    (relFitness relRmse : List ℚ) : Except String (List (ℚ × ℚ × ℕ)) :=
  if searchRadius.length ≠ voxelSizes.length ∨
      maxIt.length ≠ voxelSizes.length ∨
      relFitness.length ≠ voxelSizes.length ∨
      relRmse.length ≠ voxelSizes.length then
    Except.error
      " Length of vector: voxel_sizes, search_sizes, max_iterations, relative_fitness, relative_rmse must be same."
  else
    Except.ok (levelCriteria maxIt relFitness relRmse voxelSizes.length)

/-- The demo pipeline: the configuration is read and checked first; the
multiscale registration `run` only ever receives a configuration that passed
the check. -/
def demoPipeline {α : Type} (run : List (ℚ × ℚ × ℕ) → α)
    (voxelSizes searchRadius : List ℚ) (maxIt : List ℕ)
    (relFitness relRmse : List ℚ) : Except String α :=
  (checkScaleLevels voxelSizes searchRadius maxIt relFitness relRmse).map run

/-- C9: whenever the five per-level lists do not all have the length of the
voxel-size list, the configuration check fails with the fatal length error,
and the whole pipeline returns that error for every possible registration
`run` — the registration is never invoked and no partial result is
produced. -/
theorem multiscale_config_length_check (voxelSizes searchRadius : List ℚ)
    (maxIt : List ℕ) (relFitness relRmse : List ℚ)
    (h : ¬ (searchRadius.length = voxelSizes.length ∧
        maxIt.length = voxelSizes.length ∧
        relFitness.length = voxelSizes.length ∧
        relRmse.length = voxelSizes.length)) :
    checkScaleLevels voxelSizes searchRadius maxIt relFitness relRmse =
        Except.error
          " Length of vector: voxel_sizes, search_sizes, max_iterations, relative_fitness, relative_rmse must be same." ∧
      ∀ (α : Type) (run : List (ℚ × ℚ × ℕ) → α),
        demoPipeline run voxelSizes searchRadius maxIt relFitness relRmse =
          Except.error
            " Length of vector: voxel_sizes, search_sizes, max_iterations, relative_fitness, relative_rmse must be same." := by
  have hcond : searchRadius.length ≠ voxelSizes.length ∨
      maxIt.length ≠ voxelSizes.length ∨
      relFitness.length ≠ voxelSizes.length ∨
      relRmse.length ≠ voxelSizes.length := by
    by_contra hcontra
    push_neg at hcontra
    exact h ⟨hcontra.1, hcontra.2.1, hcontra.2.2.1, hcontra.2.2.2⟩
  have hcheck : checkScaleLevels voxelSizes searchRadius maxIt relFitness
      relRmse = Except.error
      " Length of vector: voxel_sizes, search_sizes, max_iterations, relative_fitness, relative_rmse must be same." := by
    rw [checkScaleLevels, if_pos hcond]
  refine ⟨hcheck, fun α run => ?_⟩
  rw [demoPipeline, hcheck]
  rfl

/-- Witness for C9: one voxel size but an empty search-radius list. -/
theorem multiscale_config_length_check_witness :
    (¬ (([] : List ℚ).length = ([1] : List ℚ).length ∧
        ([5] : List ℕ).length = ([1] : List ℚ).length ∧
        ([1] : List ℚ).length = ([1] : List ℚ).length ∧
        ([1] : List ℚ).length = ([1] : List ℚ).length)) ∧
      (checkScaleLevels [1] [] [5] [1] [1] =
          Except.error
            " Length of vector: voxel_sizes, search_sizes, max_iterations, relative_fitness, relative_rmse must be same." ∧
        ∀ (α : Type) (run : List (ℚ × ℚ × ℕ) → α),
          demoPipeline run [1] [] [5] [1] [1] =
            Except.error
              " Length of vector: voxel_sizes, search_sizes, max_iterations, relative_fitness, relative_rmse must be same.") :=
  ⟨by simp, multiscale_config_length_check [1] [] [5] [1] [1] (by simp)⟩
